import Mathlib

/-!
# Form-field collection of the Word VBA layer

A shallow embedding of `sw/source/ui/vba/vbaformfields.cxx`: the fieldmark
locator `lcl_getFieldmark`, the collection helper `FormFieldCollectionHelper`
and the enumeration wrapper `FormFieldsEnumWrapper`, followed by theorems about
them.

Conventions of the embedding:

* `sal_Int32` values are `Int`s; the one arithmetic operation of the file, the
  post-increment, is reduced into the signed 32-bit range by `wrapInt32`;
* a pointer that may be null is an `Option`;
* a method of a stateful object takes the object and returns its result
  together with the object after the call;
* a UNO exception is the `error` case of `Except`.
-/

namespace VbaFormFields

/-! ## Machine integers -/

/-- The constant `SAL_MAX_INT32`. -/
def SAL_MAX_INT32 : Int := 2147483647

/-- Reduction of an integer into the range of `sal_Int32` (two's complement). -/
def wrapInt32 (x : Int) : Int := (x + 2147483648) % 4294967296 - 2147483648

/-! ## Strings -/

/-- An `OUString`, modelled by the text it holds, a sequence of Unicode
characters. The UTF-8 `std::string_view` that `lcl_getFieldmark` receives is
modelled by the same text, so that `OUString::toUtf8` followed by
`OUString::fromUtf8` is the identity. A character outside the Basic Multilingual
Plane takes two UTF-16 code units, neither of them an ASCII letter, so that
comparing texts character by character agrees with comparing code units. -/
abbrev OUString := String

/-- Modelled from the spec: `rtl::toAsciiLowerCase`, which is outside the source
file. The spec compares names case-insensitively; the helper that the source
calls folds the capitals `A` to `Z` to `a` to `z` and changes no other
character. -/
def toAsciiLowerCase (c : Char) : Char :=
  if 65 ≤ c.toNat ∧ c.toNat ≤ 90 then Char.ofNat (c.toNat + 32) else c

/-- Modelled from the spec: `OUString::equalsIgnoreAsciiCase`, which is outside
the source file. The spec says that name comparison is case-insensitive and
exact otherwise (no partial match, no trimming): two strings are equal when they
have the same length and agree character by character after the ASCII capitals
are folded. -/
def equalsIgnoreAsciiCase (a b : OUString) : Bool :=
  a.length == b.length && a.toList.map toAsciiLowerCase == b.toList.map toAsciiLowerCase

/-! ## Marks and documents -/

/-- Modelled from the spec: the type tag `IDocumentMarkAccess::MarkType`, declared
outside the source file. The three form-field kinds are the ones the `switch` of
`lcl_getFieldmark` names; every other kind of mark takes its `default:` branch. -/
inductive MarkType where
  | CHECKBOX_FIELDMARK
  | DROPDOWN_FIELDMARK
  | TEXT_FIELDMARK
  | DATE_FIELDMARK
  | BOOKMARK
  | ANNOTATIONMARK
  deriving DecidableEq

/-- Modelled from the spec: a mark of the document (`sw::mark::IMark`, declared
outside the source file): its name and its type tag. `id` stands for the
identity of the mark object, which is what a returned pointer designates. -/
structure Mark where
  id : Nat
  name : OUString
  type : MarkType
  deriving DecidableEq

/-- Modelled from the spec: the document `SwDoc`; `getIDocumentMarkAccess` gives
the mark store or a null pointer. The store is modelled by the ordered sequence
of marks that the traversal from `getFieldmarksBegin` to `getFieldmarksEnd`
visits. -/
structure SwDoc where
  getIDocumentMarkAccess : Option (List Mark)
  deriving DecidableEq

/-- Modelled from the spec: the model handle `frame::XModel`;
`word::getDocShell(xModel)->GetDoc()` gives the document or a null pointer. -/
structure XModel where
  GetDoc : Option SwDoc
  deriving DecidableEq

/-- A document whose mark store holds `marks`. -/
def XModel.ofMarks (marks : List Mark) : XModel := ⟨some ⟨some marks⟩⟩

/-- The marks of the store a model handle resolves to, in storage order; there
are none when the document or its mark store cannot be resolved. -/
def XModel.marks (xModel : XModel) : List Mark :=
  match xModel.GetDoc with
  | none => []
  | some pDoc => pDoc.getIDocumentMarkAccess.getD []

/-! ## The locator `lcl_getFieldmark` -/

/-- The three `case` labels of the `switch` in `lcl_getFieldmark`. -/
def isFormFieldType : MarkType → Bool
  | .CHECKBOX_FIELDMARK => true
  | .DROPDOWN_FIELDMARK => true
  | .TEXT_FIELDMARK => true
  | _ => false

/-- The qualifying subsequence of a sequence of marks: the marks of the three
form-field types, in the order of the sequence. -/
def formFields (marks : List Mark) : List Mark :=
  marks.filter (fun mark => isFormFieldType mark.type)

/-- How the `while` loop of `lcl_getFieldmark` is left: through one of the two
`return` statements in its body, with the mark and the value of `rIndex` then, or
by reaching `getFieldmarksEnd`, with the final `nCounter` and `vElementNames`. -/
inductive LoopExit where
  | returned (pMark : Mark) (rIndex : Int)
  | finished (nCounter : Int) (vElementNames : List OUString)
  deriving DecidableEq

/-- The `while` loop of `lcl_getFieldmark` over the marks from `aIter` on.
`bElementNames` says whether `pElementNames` is non-null. A mark of one of the
three form-field types is a fieldmark, so the `dynamic_cast` of the two `return`
statements gives the mark itself. -/
def fieldmarkLoop (rName : OUString) (rIndex : Int) (bElementNames : Bool) :
    List Mark → Int → List OUString → LoopExit
  | [], nCounter, vElementNames => .finished nCounter vElementNames
  | mark :: rest, nCounter, vElementNames =>
    if isFormFieldType mark.type then
      if rIndex < 0 ∧ equalsIgnoreAsciiCase mark.name rName = true then
        .returned mark nCounter
      else if rIndex = nCounter then
        .returned mark rIndex
      else
        fieldmarkLoop rName rIndex bElementNames rest (wrapInt32 (nCounter + 1))
          (if bElementNames then vElementNames ++ [mark.name] else vElementNames)
    else
      fieldmarkLoop rName rIndex bElementNames rest nCounter vElementNames

/-- The names of the form fields of `marks`, appended to `vElementNames` when the
names are asked for: the content of `vElementNames` once the loop has passed
`marks`. -/
def collectedNames (bElementNames : Bool) (vElementNames : List OUString)
    (marks : List Mark) : List OUString :=
  if bElementNames then vElementNames ++ (formFields marks).map Mark.name else vElementNames

/-- The test a name search applies to a form field. -/
def nameMatches (rName : OUString) (mark : Mark) : Bool :=
  equalsIgnoreAsciiCase mark.name rName

/-- What a call of `lcl_getFieldmark` leaves behind: the returned pointer, the
value of the in/out parameter `rIndex`, and the sequence `pElementNames` points
to (`none` when the pointer is null). -/
structure Located where
  pFieldmark : Option Mark
  rIndex : Int
  elementNames : Option (List OUString)
  deriving DecidableEq

/-- The function `lcl_getFieldmark`. `pElementNames` is `none` for a null pointer
and otherwise the content of the caller's sequence before the call. -/
def lcl_getFieldmark (rName : OUString) (rIndex : Int) (xModel : XModel)
    (pElementNames : Option (List OUString)) : Located :=
  match xModel.GetDoc with
  | none => ⟨none, rIndex, pElementNames⟩
  | some pDoc =>
    match pDoc.getIDocumentMarkAccess with
    | none => ⟨none, rIndex, pElementNames⟩
    | some marks =>
      match fieldmarkLoop rName rIndex pElementNames.isSome marks 0 [] with
      | .returned pMark rIndex1 => ⟨some pMark, rIndex1, pElementNames⟩
      | .finished nCounter vElementNames =>
        ⟨none, nCounter, pElementNames.map (fun _ => vElementNames)⟩

/-! ## The collection helper and the enumeration wrapper -/

/-- The exceptions thrown in the source file. -/
inductive UnoException where
  | IndexOutOfBoundsException
  | NoSuchElementException
  deriving DecidableEq

/-- The field handle `SwVbaFormField` built around a fieldmark. -/
structure SwVbaFormField where
  rFieldmark : Mark
  deriving DecidableEq

deriving instance DecidableEq for Except

/-- The class `FormFieldCollectionHelper`: the model handle and the cache
`m_pCache` (parent and context are only handed on to the field handle). -/
structure FormFieldCollectionHelper where
  mxModel : XModel
  m_pCache : Option Mark
  deriving DecidableEq

namespace FormFieldCollectionHelper

/-- The constructor: `m_pCache(nullptr)`. -/
def create (xModel : XModel) : FormFieldCollectionHelper := ⟨xModel, none⟩

/-- The method `getCount`. -/
def getCount (self : FormFieldCollectionHelper) : Int × FormFieldCollectionHelper :=
  let nCount := (lcl_getFieldmark "" SAL_MAX_INT32 self.mxModel none).rIndex
  (if nCount = SAL_MAX_INT32 then 0 else nCount, self)

/-- The method `getByIndex`. -/
def getByIndex (self : FormFieldCollectionHelper) (Index : Int) :
    Except UnoException SwVbaFormField × FormFieldCollectionHelper :=
  let self1 : FormFieldCollectionHelper :=
    { self with m_pCache := (lcl_getFieldmark "" Index self.mxModel none).pFieldmark }
  match self1.m_pCache with
  | none => (.error .IndexOutOfBoundsException, self1)
  | some pCache => (.ok ⟨pCache⟩, self1)

/-- The method `getElementNames`; `aSeq` starts out empty. -/
def getElementNames (self : FormFieldCollectionHelper) :
    List OUString × FormFieldCollectionHelper :=
  ((lcl_getFieldmark "" SAL_MAX_INT32 self.mxModel (some [])).elementNames.getD [], self)

/-- The method `hasByName`. -/
def hasByName (self : FormFieldCollectionHelper) (aName : OUString) :
    Bool × FormFieldCollectionHelper :=
  let self1 : FormFieldCollectionHelper :=
    { self with m_pCache := (lcl_getFieldmark aName (-1) self.mxModel none).pFieldmark }
  (self1.m_pCache.isSome, self1)

/-- The method `getByName`. It reads the cache that its call of `hasByName` left;
`none` as a result stands for the dereference of a null `m_pCache`. -/
def getByName (self : FormFieldCollectionHelper) (aName : OUString) :
    Option (Except UnoException SwVbaFormField) × FormFieldCollectionHelper :=
  let (bFound, self1) := hasByName self aName
  if !bFound then (some (.error .NoSuchElementException), self1)
  else (self1.m_pCache.map (fun pCache => .ok ⟨pCache⟩), self1)

/-- The method `hasElements`. -/
def hasElements (self : FormFieldCollectionHelper) : Bool × FormFieldCollectionHelper :=
  let (nCount, self1) := getCount self
  (nCount != 0, self1)

end FormFieldCollectionHelper

/-- The class `FormFieldsEnumWrapper`: the collection `mxIndexAccess` refers to
and the position `nIndex`. -/
structure FormFieldsEnumWrapper where
  mxIndexAccess : FormFieldCollectionHelper
  nIndex : Int
  deriving DecidableEq

namespace FormFieldsEnumWrapper

/-- The method `hasMoreElements`. -/
def hasMoreElements (self : FormFieldsEnumWrapper) : Bool × FormFieldsEnumWrapper :=
  let (nCount, xIndexAccess) := self.mxIndexAccess.getCount
  (decide (self.nIndex < nCount), { self with mxIndexAccess := xIndexAccess })

/-- The method `nextElement`. -/
def nextElement (self : FormFieldsEnumWrapper) :
    Except UnoException SwVbaFormField × FormFieldsEnumWrapper :=
  let (nCount, xIndexAccess) := self.mxIndexAccess.getCount
  if self.nIndex < nCount then
    let (aElement, xIndexAccess1) := xIndexAccess.getByIndex self.nIndex
    (aElement, ⟨xIndexAccess1, wrapInt32 (self.nIndex + 1)⟩)
  else
    (.error .NoSuchElementException, { self with mxIndexAccess := xIndexAccess })

end FormFieldsEnumWrapper

/-- The method `FormFieldCollectionHelper::createEnumeration`: a wrapper around
the collection itself, at position 0. -/
def FormFieldCollectionHelper.createEnumeration (self : FormFieldCollectionHelper) :
    FormFieldsEnumWrapper := ⟨self, 0⟩

/-- The enumeration after `k` calls of `nextElement`. -/
def FormFieldsEnumWrapper.afterNextElements (self : FormFieldsEnumWrapper) :
    Nat → FormFieldsEnumWrapper
  | 0 => self
  | k + 1 => (nextElement (afterNextElements self k)).2

/-- The calls of the collection that assign its cache. -/
inductive LookupCall where
  | hasByName (aName : OUString)
  | getByIndex (Index : Int)
  deriving DecidableEq

/-- The collection after a lookup call. -/
def FormFieldCollectionHelper.afterLookup (self : FormFieldCollectionHelper) :
    LookupCall → FormFieldCollectionHelper
  | .hasByName aName => (hasByName self aName).2
  | .getByIndex Index => (getByIndex self Index).2

/-- The collection after a sequence of lookup calls, the first one first. -/
def FormFieldCollectionHelper.afterLookups (self : FormFieldCollectionHelper)
    (calls : List LookupCall) : FormFieldCollectionHelper :=
  calls.foldl afterLookup self

/-! ## Notions of the specification -/

/-- A qualifying mark, in the words of the spec: a mark whose type tag is one of
checkbox-field, dropdown-field and text-input-field. -/
def Mark.isQualifying (mark : Mark) : Prop :=
  mark.type = .CHECKBOX_FIELDMARK ∨ mark.type = .DROPDOWN_FIELDMARK
    ∨ mark.type = .TEXT_FIELDMARK

instance (mark : Mark) : Decidable mark.isQualifying := by
  unfold Mark.isQualifying
  infer_instance

/-- The qualifying subsequence of a document, in the words of the spec: its
qualifying marks, in the document's mark ordering. -/
def XModel.qualifyingMarks (xModel : XModel) : List Mark :=
  xModel.marks.filter (fun mark => decide mark.isQualifying)

/-- The lower-case partner of a capital letter of the Unicode blocks Basic Latin
and Latin-1 Supplement; any other character is left as it is. -/
def toLowerCase (c : Char) : Char :=
  if (65 ≤ c.toNat ∧ c.toNat ≤ 90) ∨ (192 ≤ c.toNat ∧ c.toNat ≤ 214)
      ∨ (216 ≤ c.toNat ∧ c.toNat ≤ 222) then
    Char.ofNat (c.toNat + 32)
  else c

/-- Equality of two names up to the case of letters, in the words of the spec
(case-insensitive, exact otherwise), the letters being those of Basic Latin and
Latin-1 Supplement: the same length, and the same characters once capitals are
replaced by their lower-case partners. -/
def equalsIgnoreCase (a b : OUString) : Bool :=
  a.length == b.length && a.toList.map toLowerCase == b.toList.map toLowerCase

/-- The document of the spec's scenario: a checkbox `A`, a bookmark `B` and a
text input `C`. -/
def scenarioDocument : XModel :=
  XModel.ofMarks [⟨1, "A", .CHECKBOX_FIELDMARK⟩, ⟨2, "B", .BOOKMARK⟩, ⟨3, "C", .TEXT_FIELDMARK⟩]

/-- A checkbox named `A`, the mark in position `i` of the document below. -/
def checkboxAt (i : Nat) : Mark := ⟨i, "A", .CHECKBOX_FIELDMARK⟩

/-- A document of `n` checkboxes. -/
def checkboxDocument (n : Nat) : XModel :=
  XModel.ofMarks ((List.range n).map checkboxAt)

/-- A document of `SAL_MAX_INT32` checkboxes. -/
def saturatedDocument : XModel := checkboxDocument 2147483647

/-- A document with one checkbox, named with a capital letter outside ASCII. -/
def accentDocument : XModel := XModel.ofMarks [⟨1, "É", .CHECKBOX_FIELDMARK⟩]

/-- A document whose only mark is a text input with the empty name. -/
def emptyNameDocument : XModel := XModel.ofMarks [⟨7, "", .TEXT_FIELDMARK⟩]

/-! ## The loop of the locator -/

theorem wrapInt32_eq_self {x : Int} (hlo : -2147483648 ≤ x) (hhi : x ≤ 2147483647) :
    wrapInt32 x = x := by
  unfold wrapInt32
  omega

theorem formFields_nil : formFields [] = [] := rfl

theorem formFields_cons_of_formField {mark : Mark} (rest : List Mark)
    (h : isFormFieldType mark.type = true) :
    formFields (mark :: rest) = mark :: formFields rest := by
  simp [formFields, h]

theorem formFields_cons_of_other {mark : Mark} (rest : List Mark)
    (h : isFormFieldType mark.type = false) :
    formFields (mark :: rest) = formFields rest := by
  simp [formFields, h]

theorem formFields_append (pre post : List Mark) :
    formFields (pre ++ post) = formFields pre ++ formFields post := by
  simp [formFields]

theorem mem_formFields {mark : Mark} {marks : List Mark} :
    mark ∈ formFields marks ↔ mark ∈ marks ∧ isFormFieldType mark.type = true := by
  simp [formFields]

theorem fieldmarkLoop_cons_of_other (rName : OUString) (rIndex : Int) (bElementNames : Bool)
    {mark : Mark} (rest : List Mark) (nCounter : Int) (vElementNames : List OUString)
    (h : isFormFieldType mark.type = false) :
    fieldmarkLoop rName rIndex bElementNames (mark :: rest) nCounter vElementNames
      = fieldmarkLoop rName rIndex bElementNames rest nCounter vElementNames := by
  rw [fieldmarkLoop]
  simp [h]

theorem fieldmarkLoop_cons_of_formField (rName : OUString) (rIndex : Int)
    (bElementNames : Bool) {mark : Mark} (rest : List Mark) (nCounter : Int)
    (vElementNames : List OUString) (h : isFormFieldType mark.type = true) :
    fieldmarkLoop rName rIndex bElementNames (mark :: rest) nCounter vElementNames
      = if rIndex < 0 ∧ equalsIgnoreAsciiCase mark.name rName = true then
          .returned mark nCounter
        else if rIndex = nCounter then .returned mark rIndex
        else fieldmarkLoop rName rIndex bElementNames rest (wrapInt32 (nCounter + 1))
          (if bElementNames then vElementNames ++ [mark.name] else vElementNames) := by
  rw [fieldmarkLoop]
  simp [h]

/-- The loop does not see the marks of other types. -/
theorem fieldmarkLoop_formFields (rName : OUString) (rIndex : Int) (bElementNames : Bool)
    (marks : List Mark) (nCounter : Int) (vElementNames : List OUString) :
    fieldmarkLoop rName rIndex bElementNames marks nCounter vElementNames
      = fieldmarkLoop rName rIndex bElementNames (formFields marks) nCounter vElementNames := by
  induction marks generalizing nCounter vElementNames with
  | nil => rfl
  | cons mark rest ih =>
    cases h : isFormFieldType mark.type
    · rw [formFields_cons_of_other rest h, fieldmarkLoop_cons_of_other _ _ _ _ _ _ h]
      exact ih nCounter vElementNames
    · rw [formFields_cons_of_formField rest h, fieldmarkLoop_cons_of_formField _ _ _ _ _ _ h,
        fieldmarkLoop_cons_of_formField _ _ _ _ _ _ h, ih]

/-- A positional request beyond the last form field runs the loop to its end,
which then holds the number of form fields in `nCounter`. -/
theorem fieldmarkLoop_finished (rName : OUString) (rIndex : Int) (bElementNames : Bool)
    (marks : List Mark) (nCounter : Int) (vElementNames : List OUString)
    (hc : 0 ≤ nCounter) (hle : nCounter + (formFields marks).length ≤ rIndex)
    (hcap : nCounter + (formFields marks).length ≤ SAL_MAX_INT32) :
    fieldmarkLoop rName rIndex bElementNames marks nCounter vElementNames
      = .finished (nCounter + (formFields marks).length)
          (collectedNames bElementNames vElementNames marks) := by
  induction marks generalizing nCounter vElementNames with
  | nil => cases bElementNames <;> simp [fieldmarkLoop, collectedNames, formFields]
  | cons mark rest ih =>
    cases h : isFormFieldType mark.type
    · rw [formFields_cons_of_other rest h] at hle hcap
      rw [fieldmarkLoop_cons_of_other _ _ _ _ _ _ h, ih nCounter vElementNames hc hle hcap]
      simp [collectedNames, formFields_cons_of_other rest h]
    · rw [formFields_cons_of_formField rest h] at hle hcap
      simp only [List.length_cons, Nat.cast_add, Nat.cast_one] at hle hcap
      have hr : ¬ rIndex < 0 := by omega
      have hne : ¬ rIndex = nCounter := by omega
      have hw : wrapInt32 (nCounter + 1) = nCounter + 1 :=
        wrapInt32_eq_self (by omega) (by unfold SAL_MAX_INT32 at hcap; omega)
      rw [fieldmarkLoop_cons_of_formField _ _ _ _ _ _ h]
      simp only [hr, hne, false_and, if_false, hw]
      rw [ih (nCounter + 1) _ (by omega) (by omega) (by omega)]
      cases bElementNames <;>
        simp [collectedNames, formFields_cons_of_formField rest h, add_assoc, add_comm]

/-- A positional request within the form fields returns the form field at that
position and leaves `rIndex` as it was. -/
theorem fieldmarkLoop_returned (rName : OUString) (rIndex : Int) (bElementNames : Bool)
    (marks : List Mark) (nCounter : Int) (vElementNames : List OUString) (pMark : Mark)
    (hc : 0 ≤ nCounter) (hle : nCounter ≤ rIndex) (hmax : rIndex ≤ SAL_MAX_INT32)
    (hget : (formFields marks)[(rIndex - nCounter).toNat]? = some pMark) :
    fieldmarkLoop rName rIndex bElementNames marks nCounter vElementNames
      = .returned pMark rIndex := by
  induction marks generalizing nCounter vElementNames with
  | nil => simp [formFields] at hget
  | cons mark rest ih =>
    cases h : isFormFieldType mark.type
    · rw [formFields_cons_of_other rest h] at hget
      rw [fieldmarkLoop_cons_of_other _ _ _ _ _ _ h]
      exact ih nCounter vElementNames hc hle hget
    · rw [formFields_cons_of_formField rest h] at hget
      have hr : ¬ rIndex < 0 := by omega
      rw [fieldmarkLoop_cons_of_formField _ _ _ _ _ _ h]
      by_cases heq : rIndex = nCounter
      · rw [heq] at hget
        simp only [sub_self, Int.toNat_zero, List.getElem?_cons_zero, Option.some.injEq] at hget
        simp [hr, heq, hget]
      · have hw : wrapInt32 (nCounter + 1) = nCounter + 1 :=
          wrapInt32_eq_self (by omega) (by unfold SAL_MAX_INT32 at hmax; omega)
        simp only [hr, heq, false_and, if_false, hw]
        apply ih (nCounter + 1) _ (by omega) (by omega)
        have hk : (rIndex - nCounter).toNat = (rIndex - (nCounter + 1)).toNat + 1 := by omega
        rw [hk, List.getElem?_cons_succ] at hget
        exact hget
/-- A name search returns the first form field whose name matches, with its
position among the form fields in `rIndex`, and otherwise runs the loop to its
end. -/
theorem fieldmarkLoop_search (rName : OUString) (rIndex : Int) (bElementNames : Bool)
    (marks : List Mark) (nCounter : Int) (vElementNames : List OUString)
    (hr : rIndex < 0) (hc : 0 ≤ nCounter)
    (hcap : nCounter + (formFields marks).length ≤ SAL_MAX_INT32) :
    fieldmarkLoop rName rIndex bElementNames marks nCounter vElementNames
      = match (formFields marks).find? (nameMatches rName) with
        | some pMark =>
          .returned pMark (nCounter + (formFields marks).findIdx (nameMatches rName))
        | none =>
          .finished (nCounter + (formFields marks).length)
            (collectedNames bElementNames vElementNames marks) := by
  induction marks generalizing nCounter vElementNames with
  | nil => cases bElementNames <;> simp [fieldmarkLoop, collectedNames, formFields]
  | cons mark rest ih =>
    cases h : isFormFieldType mark.type
    · rw [formFields_cons_of_other rest h] at hcap
      rw [fieldmarkLoop_cons_of_other _ _ _ _ _ _ h, ih nCounter vElementNames hc hcap,
        formFields_cons_of_other rest h]
      simp [collectedNames, formFields_cons_of_other rest h]
    · rw [formFields_cons_of_formField rest h] at hcap
      simp only [List.length_cons, Nat.cast_add, Nat.cast_one] at hcap
      rw [fieldmarkLoop_cons_of_formField _ _ _ _ _ _ h, formFields_cons_of_formField rest h]
      cases hm : nameMatches rName mark
      · have hm1 : ¬ equalsIgnoreAsciiCase mark.name rName = true := by
          simpa [nameMatches] using hm
        have hne : ¬ rIndex = nCounter := by omega
        have hw : wrapInt32 (nCounter + 1) = nCounter + 1 :=
          wrapInt32_eq_self (by omega) (by unfold SAL_MAX_INT32 at hcap; omega)
        simp only [hm1, hne, and_false, if_false, hw]
        rw [ih (nCounter + 1) _ (by omega) (by omega), List.find?_cons_of_neg _ (by simp [hm]),
          List.findIdx_cons, hm]
        cases hf : List.find? (nameMatches rName) (formFields rest)
        · cases bElementNames <;>
            simp [collectedNames, formFields_cons_of_formField rest h, add_assoc, add_comm]
        · simp [add_assoc, add_comm]
      · have hm1 : equalsIgnoreAsciiCase mark.name rName = true := by
          simpa [nameMatches] using hm
        simp [hr, hm1, List.find?_cons_of_pos _ hm, List.findIdx_cons, hm]

/-! ## The locator -/

/-- A model handle either fails to resolve to a mark store or resolves to one. -/
theorem XModel.unresolved_or_resolved (xModel : XModel) :
    (xModel = ⟨none⟩ ∨ xModel = ⟨some ⟨none⟩⟩) ∨ ∃ marks, xModel = ⟨some ⟨some marks⟩⟩ := by
  rcases xModel with ⟨_ | ⟨_ | marks⟩⟩
  · exact Or.inl (Or.inl rfl)
  · exact Or.inl (Or.inr rfl)
  · exact Or.inr ⟨marks, rfl⟩

theorem lcl_getFieldmark_unresolved (rName : OUString) (rIndex : Int) {xModel : XModel}
    (pElementNames : Option (List OUString))
    (h : xModel = ⟨none⟩ ∨ xModel = ⟨some ⟨none⟩⟩) :
    lcl_getFieldmark rName rIndex xModel pElementNames = ⟨none, rIndex, pElementNames⟩ := by
  rcases h with h | h <;> subst h <;> rfl

theorem XModel.marks_unresolved {xModel : XModel}
    (h : xModel = ⟨none⟩ ∨ xModel = ⟨some ⟨none⟩⟩) : xModel.marks = [] := by
  rcases h with h | h <;> subst h <;> rfl

/-- The locator beyond the last form field: a null pointer, and the number of
form fields in `rIndex`. -/
theorem lcl_getFieldmark_finished (rName : OUString) (rIndex : Int) (xModel : XModel)
    (pElementNames : Option (List OUString))
    (hle : ((formFields xModel.marks).length : Int) ≤ rIndex)
    (hcap : ((formFields xModel.marks).length : Int) ≤ SAL_MAX_INT32)
    (hres : ∃ marks, xModel = ⟨some ⟨some marks⟩⟩) :
    lcl_getFieldmark rName rIndex xModel pElementNames
      = ⟨none, (formFields xModel.marks).length,
          pElementNames.map (fun _ => (formFields xModel.marks).map Mark.name)⟩ := by
  obtain ⟨marks, rfl⟩ := hres
  have hloop := fieldmarkLoop_finished rName rIndex pElementNames.isSome marks 0 []
    (le_refl 0) (by simpa [XModel.marks] using hle) (by simpa [XModel.marks] using hcap)
  simp only [lcl_getFieldmark, hloop, XModel.marks, Option.getD_some, zero_add]
  cases pElementNames <;> simp [collectedNames]

/-- The locator at a position within the form fields: the form field there, and
`rIndex` as it was. -/
theorem lcl_getFieldmark_returned (rName : OUString) (rIndex : Int) (xModel : XModel)
    (pElementNames : Option (List OUString)) (pMark : Mark) (hr : 0 ≤ rIndex)
    (hmax : rIndex ≤ SAL_MAX_INT32)
    (hget : (formFields xModel.marks)[rIndex.toNat]? = some pMark) :
    lcl_getFieldmark rName rIndex xModel pElementNames
      = ⟨some pMark, rIndex, pElementNames⟩ := by
  rcases xModel.unresolved_or_resolved with h | ⟨marks, rfl⟩
  · rw [XModel.marks_unresolved h] at hget
    simp [formFields] at hget
  · have hloop := fieldmarkLoop_returned rName rIndex pElementNames.isSome marks 0 [] pMark
      (le_refl 0) hr hmax (by simpa [XModel.marks] using hget)
    simp only [lcl_getFieldmark, hloop]

/-- The locator in a name search. -/
theorem lcl_getFieldmark_search (rName : OUString) (rIndex : Int) (xModel : XModel)
    (pElementNames : Option (List OUString)) (hr : rIndex < 0)
    (hcap : ((formFields xModel.marks).length : Int) ≤ SAL_MAX_INT32)
    (hres : ∃ marks, xModel = ⟨some ⟨some marks⟩⟩) :
    lcl_getFieldmark rName rIndex xModel pElementNames
      = match (formFields xModel.marks).find? (nameMatches rName) with
        | some pMark =>
          ⟨some pMark, (formFields xModel.marks).findIdx (nameMatches rName), pElementNames⟩
        | none =>
          ⟨none, (formFields xModel.marks).length,
            pElementNames.map (fun _ => (formFields xModel.marks).map Mark.name)⟩ := by
  obtain ⟨marks, rfl⟩ := hres
  have hloop := fieldmarkLoop_search rName rIndex pElementNames.isSome marks 0 []
    hr (le_refl 0) (by simpa [XModel.marks] using hcap)
  simp only [lcl_getFieldmark, hloop, XModel.marks, Option.getD_some, zero_add]
  cases List.find? (nameMatches rName) (formFields marks)
  · cases pElementNames <;> simp [collectedNames]
  · rfl

/-- The pointer a name search returns: the first form field whose name matches. -/
theorem lcl_getFieldmark_search_pFieldmark (rName : OUString) (rIndex : Int)
    (xModel : XModel) (pElementNames : Option (List OUString)) (hr : rIndex < 0)
    (hcap : ((formFields xModel.marks).length : Int) ≤ SAL_MAX_INT32) :
    (lcl_getFieldmark rName rIndex xModel pElementNames).pFieldmark
      = (formFields xModel.marks).find? (nameMatches rName) := by
  rcases xModel.unresolved_or_resolved with h | hres
  · rw [lcl_getFieldmark_unresolved _ _ _ h, XModel.marks_unresolved h]
    rfl
  · rw [lcl_getFieldmark_search rName rIndex xModel pElementNames hr hcap hres]
    cases List.find? (nameMatches rName) (formFields xModel.marks) <;> rfl

/-! ## The collection helper -/

namespace FormFieldCollectionHelper

/-- The value of `getCount`: the number of form fields when it is below
`SAL_MAX_INT32`, which doubles as the marker for an unresolved document. -/
theorem getCount_fst (self : FormFieldCollectionHelper) :
    (getCount self).1
      = if ((formFields self.mxModel.marks).length : Int) < SAL_MAX_INT32 then
          ((formFields self.mxModel.marks).length : Int)
        else 0 := by
  obtain ⟨xModel, pCache⟩ := self
  simp only [getCount]
  rcases xModel.unresolved_or_resolved with h | hres
  · rw [lcl_getFieldmark_unresolved _ _ _ h, XModel.marks_unresolved h]
    simp [formFields, SAL_MAX_INT32]
  · rcases lt_trichotomy ((formFields xModel.marks).length : Int) SAL_MAX_INT32 with hlt | heq | hgt
    · rw [lcl_getFieldmark_finished "" SAL_MAX_INT32 xModel none hlt.le hlt.le hres]
      simp [hlt, hlt.ne]
    · rw [lcl_getFieldmark_finished "" SAL_MAX_INT32 xModel none heq.le heq.le hres]
      simp [heq]
    · have hlen : SAL_MAX_INT32.toNat < (formFields xModel.marks).length := by
        unfold SAL_MAX_INT32 at hgt ⊢
        omega
      rw [lcl_getFieldmark_returned "" SAL_MAX_INT32 xModel none
        ((formFields xModel.marks)[SAL_MAX_INT32.toNat]) (by decide) (le_refl _)
        (List.getElem?_eq_getElem hlen)]
      simp [not_lt.mpr hgt.le]

theorem getCount_snd (self : FormFieldCollectionHelper) : (getCount self).2 = self := rfl

/-- The value of `getByIndex`, from the pointer the locator returns. -/
theorem getByIndex_fst (self : FormFieldCollectionHelper) (Index : Int) :
    (getByIndex self Index).1
      = match (lcl_getFieldmark "" Index self.mxModel none).pFieldmark with
        | none => .error .IndexOutOfBoundsException
        | some pMark => .ok ⟨pMark⟩ := by
  simp only [getByIndex]
  cases (lcl_getFieldmark "" Index self.mxModel none).pFieldmark <;> rfl

/-- The collection after `getByIndex`: the cache holds the pointer the locator
returned. -/
theorem getByIndex_snd (self : FormFieldCollectionHelper) (Index : Int) :
    (getByIndex self Index).2
      = ⟨self.mxModel, (lcl_getFieldmark "" Index self.mxModel none).pFieldmark⟩ := by
  simp only [getByIndex]
  cases (lcl_getFieldmark "" Index self.mxModel none).pFieldmark <;> rfl

/-- The call `getByIndex` at a position within the form fields. -/
theorem getByIndex_of_getElem? (self : FormFieldCollectionHelper) (Index : Int)
    (pMark : Mark) (hr : 0 ≤ Index) (hmax : Index ≤ SAL_MAX_INT32)
    (hget : (formFields self.mxModel.marks)[Index.toNat]? = some pMark) :
    getByIndex self Index = (.ok ⟨pMark⟩, ⟨self.mxModel, some pMark⟩) := by
  simp only [getByIndex,
    lcl_getFieldmark_returned "" Index self.mxModel none pMark hr hmax hget]

/-- The call `getByIndex` beyond the last form field. -/
theorem getByIndex_of_length_le (self : FormFieldCollectionHelper) (Index : Int)
    (hle : ((formFields self.mxModel.marks).length : Int) ≤ Index)
    (hcap : ((formFields self.mxModel.marks).length : Int) ≤ SAL_MAX_INT32) :
    getByIndex self Index = (.error .IndexOutOfBoundsException, ⟨self.mxModel, none⟩) := by
  rcases self.mxModel.unresolved_or_resolved with h | hres
  · simp only [getByIndex, lcl_getFieldmark_unresolved _ _ _ h]
  · simp only [getByIndex, lcl_getFieldmark_finished "" Index self.mxModel none
      hle hcap hres]

/-- The call `hasByName`. -/
theorem hasByName_eq (self : FormFieldCollectionHelper) (aName : OUString)
    (hcap : ((formFields self.mxModel.marks).length : Int) ≤ SAL_MAX_INT32) :
    hasByName self aName
      = (((formFields self.mxModel.marks).find? (nameMatches aName)).isSome,
          ⟨self.mxModel, (formFields self.mxModel.marks).find? (nameMatches aName)⟩) := by
  simp only [hasByName,
    lcl_getFieldmark_search_pFieldmark aName (-1) self.mxModel none (by decide) hcap]

/-- The call `getByName`, from the pointer the locator returns to its call of
`hasByName`. -/
theorem getByName_eq (self : FormFieldCollectionHelper) (aName : OUString) :
    getByName self aName
      = (match (lcl_getFieldmark aName (-1) self.mxModel none).pFieldmark with
          | none => some (.error .NoSuchElementException)
          | some pMark => some (.ok ⟨pMark⟩),
        ⟨self.mxModel, (lcl_getFieldmark aName (-1) self.mxModel none).pFieldmark⟩) := by
  simp only [getByName, hasByName]
  cases (lcl_getFieldmark aName (-1) self.mxModel none).pFieldmark <;> rfl

/-- The call `hasByName`, from the pointer the locator returns. -/
theorem hasByName_eq_locator (self : FormFieldCollectionHelper) (aName : OUString) :
    hasByName self aName
      = ((lcl_getFieldmark aName (-1) self.mxModel none).pFieldmark.isSome,
        ⟨self.mxModel, (lcl_getFieldmark aName (-1) self.mxModel none).pFieldmark⟩) := rfl

/-- The value of `getElementNames`. -/
theorem getElementNames_fst (self : FormFieldCollectionHelper)
    (hcap : ((formFields self.mxModel.marks).length : Int) ≤ SAL_MAX_INT32) :
    (getElementNames self).1 = (formFields self.mxModel.marks).map Mark.name := by
  rcases self.mxModel.unresolved_or_resolved with h | hres
  · simp [getElementNames, lcl_getFieldmark_unresolved _ _ _ h, XModel.marks_unresolved h,
      formFields]
  · simp [getElementNames, lcl_getFieldmark_finished "" SAL_MAX_INT32 self.mxModel (some [])
      hcap hcap hres]

end FormFieldCollectionHelper

/-! ## The source's type test and the spec's qualifying marks -/

theorem isFormFieldType_iff_isQualifying (mark : Mark) :
    isFormFieldType mark.type = true ↔ mark.isQualifying := by
  unfold Mark.isQualifying
  cases mark.type <;> simp [isFormFieldType]

theorem formFields_eq_filter_isQualifying (marks : List Mark) :
    formFields marks = marks.filter (fun mark => decide mark.isQualifying) := by
  unfold formFields
  congr 1
  funext mark
  rw [Bool.eq_iff_iff]
  simpa using isFormFieldType_iff_isQualifying mark

theorem XModel.qualifyingMarks_eq_formFields (xModel : XModel) :
    xModel.qualifyingMarks = formFields xModel.marks :=
  (formFields_eq_filter_isQualifying xModel.marks).symm

theorem formFields_insert_other (pre post : List Mark) (other : Mark)
    (hother : ¬ other.isQualifying) :
    formFields (pre ++ other :: post) = formFields (pre ++ post) := by
  have h : isFormFieldType other.type = false := by
    rw [← Bool.not_eq_true, isFormFieldType_iff_isQualifying]
    exact hother
  rw [formFields_append, formFields_append, formFields_cons_of_other post h]

/-- The locator gives the same result on two documents with the same form
fields. -/
theorem lcl_getFieldmark_congr (rName : OUString) (rIndex : Int)
    (pElementNames : Option (List OUString)) {marks1 marks2 : List Mark}
    (h : formFields marks1 = formFields marks2) :
    lcl_getFieldmark rName rIndex (XModel.ofMarks marks1) pElementNames
      = lcl_getFieldmark rName rIndex (XModel.ofMarks marks2) pElementNames := by
  simp only [lcl_getFieldmark, XModel.ofMarks]
  rw [fieldmarkLoop_formFields _ _ _ marks1, h, ← fieldmarkLoop_formFields _ _ _ marks2]

/-! ## Count and positional access -/

open FormFieldCollectionHelper

theorem marks_checkboxDocument (n : Nat) :
    (checkboxDocument n).marks = (List.range n).map checkboxAt := rfl

theorem type_of_mem_checkboxDocument {n : Nat} {mark : Mark}
    (h : mark ∈ (checkboxDocument n).marks) : mark.type = .CHECKBOX_FIELDMARK := by
  rw [marks_checkboxDocument] at h
  obtain ⟨i, _, hi⟩ := List.mem_map.mp h
  rw [← hi]
  rfl

/-- The form fields of a document of checkboxes are its marks. -/
theorem formFields_checkboxDocument (n : Nat) :
    formFields (checkboxDocument n).marks = (checkboxDocument n).marks := by
  unfold formFields
  rw [List.filter_eq_self]
  intro mark hmem
  rw [type_of_mem_checkboxDocument hmem]
  rfl

theorem length_formFields_checkboxDocument (n : Nat) :
    (formFields (checkboxDocument n).marks).length = n := by
  rw [formFields_checkboxDocument, marks_checkboxDocument, List.length_map,
    List.length_range]

theorem getCount_checkboxDocument (n : Nat) (pCache : Option Mark) :
    (getCount ⟨checkboxDocument n, pCache⟩).1
      = if (n : Int) < SAL_MAX_INT32 then (n : Int) else 0 := by
  rw [getCount_fst, length_formFields_checkboxDocument]

/-- Over the document of `SAL_MAX_INT32` checkboxes `getCount` returns 0: the
locator ends with `SAL_MAX_INT32` in `rIndex`, the value that stands for an
unresolved document. -/
theorem getCount_saturatedDocument :
    (getCount (create saturatedDocument)).1 = 0 := by
  unfold saturatedDocument create
  rw [getCount_checkboxDocument]
  decide

/-- The counterexample to C1 as stated: the document of 2147483647 checkboxes
has 2147483647 marks of a form-field type, and `getCount` returns 0. -/
theorem getCount_ne_number_of_qualifying_marks_saturated :
    (getCount (create saturatedDocument)).1 = 0
      ∧ saturatedDocument.marks.countP
          (fun mark => decide (mark.type = .CHECKBOX_FIELDMARK
            ∨ mark.type = .DROPDOWN_FIELDMARK ∨ mark.type = .TEXT_FIELDMARK))
        = 2147483647 := by
  refine ⟨getCount_saturatedDocument, ?_⟩
  unfold saturatedDocument
  have hall : ∀ mark ∈ (checkboxDocument 2147483647).marks,
      decide (mark.type = .CHECKBOX_FIELDMARK ∨ mark.type = .DROPDOWN_FIELDMARK
        ∨ mark.type = .TEXT_FIELDMARK) = true := by
    intro mark hmem
    rw [type_of_mem_checkboxDocument hmem]
    rfl
  rw [List.countP_eq_length.mpr hall, marks_checkboxDocument, List.length_map,
    List.length_range]

/-- C1, amended: for a document with fewer than `SAL_MAX_INT32` form fields,
`getCount` returns exactly the number of marks of the document whose type is checkbox,
dropdown or text input; and inserting a mark of any other type anywhere in a
document (or removing it again) does not change what `getCount` returns. -/
theorem getCount_eq_number_of_qualifying_marks (self : FormFieldCollectionHelper)
    (hcap : (self.mxModel.qualifyingMarks.length : Int) < SAL_MAX_INT32) :
    (getCount self).1
        = (self.mxModel.marks.countP
            (fun mark => decide (mark.type = .CHECKBOX_FIELDMARK
              ∨ mark.type = .DROPDOWN_FIELDMARK ∨ mark.type = .TEXT_FIELDMARK)) : Nat)
      ∧ ∀ (pre post : List Mark) (other : Mark) (pCache : Option Mark),
          ¬ (other.type = .CHECKBOX_FIELDMARK ∨ other.type = .DROPDOWN_FIELDMARK
              ∨ other.type = .TEXT_FIELDMARK) →
          (getCount ⟨XModel.ofMarks (pre ++ other :: post), pCache⟩).1
            = (getCount ⟨XModel.ofMarks (pre ++ post), pCache⟩).1 := by
  constructor
  · rw [getCount_fst, ← XModel.qualifyingMarks_eq_formFields, if_pos hcap,
      XModel.qualifyingMarks, List.countP_eq_length_filter]
    rfl
  · intro pre post other pCache hother
    simp only [getCount]
    rw [lcl_getFieldmark_congr "" SAL_MAX_INT32 none
      (formFields_insert_other pre post other hother)]

/-- The witness of C1: the count of the scenario document. -/
theorem getCount_eq_number_of_qualifying_marks_witness :
    (getCount (create scenarioDocument)).1
        = ((create scenarioDocument).mxModel.marks.countP
            (fun mark => decide (mark.type = .CHECKBOX_FIELDMARK
              ∨ mark.type = .DROPDOWN_FIELDMARK ∨ mark.type = .TEXT_FIELDMARK)) : Nat)
      ∧ ∀ (pre post : List Mark) (other : Mark) (pCache : Option Mark),
          ¬ (other.type = .CHECKBOX_FIELDMARK ∨ other.type = .DROPDOWN_FIELDMARK
              ∨ other.type = .TEXT_FIELDMARK) →
          (getCount ⟨XModel.ofMarks (pre ++ other :: post), pCache⟩).1
            = (getCount ⟨XModel.ofMarks (pre ++ post), pCache⟩).1 :=
  getCount_eq_number_of_qualifying_marks (create scenarioDocument) (by decide)

/-- Within the count, `getByIndex` returns the qualifying mark at the index. -/
theorem getByIndex_eq_qualifying_mark_at_aux (self : FormFieldCollectionHelper) (i : Int)
    (h0 : 0 ≤ i) (hi : i < (getCount self).1) :
    ∃ pMark, self.mxModel.qualifyingMarks[i.toNat]? = some pMark
      ∧ (getByIndex self i).1 = .ok ⟨pMark⟩ := by
  rw [getCount_fst, ← XModel.qualifyingMarks_eq_formFields] at hi
  have hlt : (self.mxModel.qualifyingMarks.length : Int) < SAL_MAX_INT32 := by
    by_contra hn
    rw [if_neg hn] at hi
    omega
  rw [if_pos hlt] at hi
  have hlen : i.toNat < self.mxModel.qualifyingMarks.length := by omega
  refine ⟨self.mxModel.qualifyingMarks[i.toNat], List.getElem?_eq_getElem hlen, ?_⟩
  rw [getByIndex_of_getElem? self i _ h0 (by omega)]
  rw [← XModel.qualifyingMarks_eq_formFields]
  exact List.getElem?_eq_getElem hlen

/-- C2: for every document and every index `i` with `0 ≤ i < getCount`, the call
`getByIndex i` succeeds and wraps the `i`-th mark of the qualifying subsequence
of the document, in storage order; a mark of another type takes no index slot:
with it or without it, every index designates the same mark. -/
theorem getByIndex_eq_qualifying_mark_at (self : FormFieldCollectionHelper) (i : Int)
    (h0 : 0 ≤ i) (hi : i < (getCount self).1) :
    (∃ pMark, self.mxModel.qualifyingMarks[i.toNat]? = some pMark
        ∧ (getByIndex self i).1 = .ok ⟨pMark⟩)
      ∧ ∀ (pre post : List Mark) (other : Mark) (pCache : Option Mark) (j : Int),
          ¬ other.isQualifying →
          (getByIndex ⟨XModel.ofMarks (pre ++ other :: post), pCache⟩ j).1
            = (getByIndex ⟨XModel.ofMarks (pre ++ post), pCache⟩ j).1 := by
  constructor
  · exact getByIndex_eq_qualifying_mark_at_aux self i h0 hi
  · intro pre post other pCache j hother
    rw [getByIndex_fst, getByIndex_fst]
    simp only [lcl_getFieldmark_congr "" j none
      (formFields_insert_other pre post other hother)]

/-- The witness of C2: index 1 of the scenario document, which is its third
mark. -/
theorem getByIndex_eq_qualifying_mark_at_witness :
    (getByIndex (create scenarioDocument) 1).1 = .ok ⟨⟨3, "C", .TEXT_FIELDMARK⟩⟩ := by
  obtain ⟨pMark, hget, hok⟩ :=
    (getByIndex_eq_qualifying_mark_at (create scenarioDocument) 1 (by decide) (by decide)).1
  have hmark : pMark = ⟨3, "C", .TEXT_FIELDMARK⟩ := by
    have h1 : (create scenarioDocument).mxModel.qualifyingMarks[(1 : Int).toNat]?
        = some ⟨3, "C", .TEXT_FIELDMARK⟩ := by decide
    rw [h1] at hget
    exact (Option.some.inj hget).symm
  rw [hok, hmark]

/-- The counterexample to C3 as stated: over the document of 2147483647
checkboxes `getCount` returns 0, and `getByIndex 0` succeeds. -/
theorem getByIndex_succeeds_beyond_getCount_saturated :
    (getCount (create saturatedDocument)).1 ≤ 0
      ∧ (getByIndex (create saturatedDocument) 0).1 = .ok ⟨⟨0, "A", .CHECKBOX_FIELDMARK⟩⟩ := by
  refine ⟨getCount_saturatedDocument.le, ?_⟩
  unfold saturatedDocument create
  rw [getByIndex_of_getElem? ⟨checkboxDocument 2147483647, none⟩ 0 (checkboxAt 0)
    (le_refl 0) (by decide)]
  · rfl
  · rw [formFields_checkboxDocument, marks_checkboxDocument, Int.toNat_zero,
      List.getElem?_map, List.getElem?_range (by decide)]
    rfl

/-- C3, amended: for a document with fewer than `SAL_MAX_INT32` form fields and
every index `i ≥ getCount`, the call `getByIndex i` throws the index-out-of-bounds
exception and returns no element; so it does at `i = getCount` and at
`i = SAL_MAX_INT32`. -/
theorem getByIndex_out_of_bounds (self : FormFieldCollectionHelper) (i : Int)
    (hcap : (self.mxModel.qualifyingMarks.length : Int) < SAL_MAX_INT32)
    (hi : (getCount self).1 ≤ i) :
    (getByIndex self i).1 = .error .IndexOutOfBoundsException
      ∧ (getByIndex self (getCount self).1).1 = .error .IndexOutOfBoundsException
      ∧ (getByIndex self SAL_MAX_INT32).1 = .error .IndexOutOfBoundsException := by
  rw [XModel.qualifyingMarks_eq_formFields] at hcap
  have hcount : (getCount self).1 = ((formFields self.mxModel.marks).length : Int) := by
    rw [getCount_fst, if_pos hcap]
  rw [hcount] at hi ⊢
  refine ⟨?_, ?_, ?_⟩
  · rw [getByIndex_of_length_le self i hi hcap.le]
  · rw [getByIndex_of_length_le self _ (le_refl _) hcap.le]
  · rw [getByIndex_of_length_le self _ hcap.le hcap.le]

/-- The witness of C3: index 2 of the scenario document, which has two form
fields. -/
theorem getByIndex_out_of_bounds_witness :
    (getByIndex (create scenarioDocument) 2).1 = .error .IndexOutOfBoundsException :=
  (getByIndex_out_of_bounds (create scenarioDocument) 2 (by decide) (by decide)).1

/-! ## Access by name -/

/-- Folding the ASCII capitals first does not change the lower-case partner of a
character. -/
theorem toLowerCase_toAsciiLowerCase (c : Char) :
    toLowerCase (toAsciiLowerCase c) = toLowerCase c := by
  by_cases h : 65 ≤ c.toNat ∧ c.toNat ≤ 90
  · obtain ⟨n, hn⟩ : ∃ n, c.toNat = n := ⟨_, rfl⟩
    have hc : c = Char.ofNat n := by rw [← hn, Char.ofNat_toNat]
    rw [hn] at h
    obtain ⟨hlo, hhi⟩ := h
    subst hc
    interval_cases n <;> rfl
  · simp only [toAsciiLowerCase, if_neg h]

/-- Names that are equal up to the case of the ASCII letters are equal up to the
case of letters. -/
theorem equalsIgnoreCase_of_equalsIgnoreAsciiCase (a b : OUString)
    (h : equalsIgnoreAsciiCase a b = true) : equalsIgnoreCase a b = true := by
  simp only [equalsIgnoreAsciiCase, Bool.and_eq_true, beq_iff_eq] at h
  simp only [equalsIgnoreCase, Bool.and_eq_true, beq_iff_eq]
  refine ⟨h.1, ?_⟩
  have hmap := congrArg (List.map toLowerCase) h.2
  simpa only [List.map_map, Function.comp_def, toLowerCase_toAsciiLowerCase] using hmap

/-- The counterexample to C4 as stated: the document has a checkbox named `É`,
which equals the name `é` up to the case of letters, and `hasByName` returns
false for `é`. -/
theorem hasByName_false_for_case_variant_outside_ascii :
    (hasByName (create accentDocument) "é").1 = false
      ∧ ∃ mark ∈ (create accentDocument).mxModel.marks,
          mark.isQualifying ∧ equalsIgnoreCase mark.name "é" = true := by
  refine ⟨by decide, ⟨1, "É", .CHECKBOX_FIELDMARK⟩, by decide, by decide, by decide⟩

/-- C4, amended: for a document with at most `SAL_MAX_INT32` form fields (so that
the counter of the locator does not overflow) and every name, `hasByName`
returns true if and only if some qualifying mark of the document has a name
equal to it up to the case of the ASCII letters, as `equalsIgnoreAsciiCase`
decides it; such a name is equal to it up to the case of letters. The comparison
is exact otherwise: names that match have the same length (no partial match, no
trimming), `Field1` matches `field1` and does not match `Field 1`. A mark of
another type never makes the result true: with it or without it the result is
the same. -/
theorem hasByName_iff_qualifying_name_matches (self : FormFieldCollectionHelper)
    (aName : OUString)
    (hcap : (self.mxModel.qualifyingMarks.length : Int) ≤ SAL_MAX_INT32) :
    ((hasByName self aName).1 = true
        ↔ ∃ mark ∈ self.mxModel.marks,
            mark.isQualifying ∧ equalsIgnoreAsciiCase mark.name aName = true)
      ∧ ((hasByName self aName).1 = true
        → ∃ mark ∈ self.mxModel.marks,
            mark.isQualifying ∧ equalsIgnoreCase mark.name aName = true)
      ∧ (∀ a b : OUString, equalsIgnoreAsciiCase a b = true → a.length = b.length)
      ∧ equalsIgnoreAsciiCase "Field1" "field1" = true
      ∧ equalsIgnoreAsciiCase "Field1" "Field 1" = false
      ∧ ∀ (pre post : List Mark) (other : Mark) (pCache : Option Mark),
          ¬ other.isQualifying →
          (hasByName ⟨XModel.ofMarks (pre ++ other :: post), pCache⟩ aName).1
            = (hasByName ⟨XModel.ofMarks (pre ++ post), pCache⟩ aName).1 := by
  rw [XModel.qualifyingMarks_eq_formFields] at hcap
  have hiff : (hasByName self aName).1 = true
      ↔ ∃ mark ∈ self.mxModel.marks,
          mark.isQualifying ∧ equalsIgnoreAsciiCase mark.name aName = true := by
    rw [hasByName_eq self aName hcap]
    simp only [List.find?_isSome, mem_formFields, isFormFieldType_iff_isQualifying, nameMatches]
    constructor
    · rintro ⟨mark, ⟨hmem, hq⟩, hname⟩
      exact ⟨mark, hmem, hq, hname⟩
    · rintro ⟨mark, hmem, hq, hname⟩
      exact ⟨mark, ⟨hmem, hq⟩, hname⟩
  refine ⟨hiff, ?_, ?_, by decide, by decide, ?_⟩
  · intro hhas
    obtain ⟨mark, hmem, hq, hname⟩ := hiff.mp hhas
    exact ⟨mark, hmem, hq, equalsIgnoreCase_of_equalsIgnoreAsciiCase _ _ hname⟩
  · intro a b hab
    simp only [equalsIgnoreAsciiCase, Bool.and_eq_true, beq_iff_eq] at hab
    exact hab.1
  · intro pre post other pCache hother
    rw [hasByName_eq_locator, hasByName_eq_locator]
    simp only [lcl_getFieldmark_congr aName (-1) none
      (formFields_insert_other pre post other hother)]

/-- The witness of C4: the name `c` in the scenario document. -/
theorem hasByName_iff_qualifying_name_matches_witness :
    (hasByName (create scenarioDocument) "c").1 = true
      ↔ ∃ mark ∈ (create scenarioDocument).mxModel.marks,
          mark.isQualifying ∧ equalsIgnoreAsciiCase mark.name "c" = true :=
  (hasByName_iff_qualifying_name_matches (create scenarioDocument) "c" (by decide)).1

/-- Past `SAL_MAX_INT32` form fields the locator returns from within the loop and
`getElementNames` leaves its sequence empty. -/
theorem getElementNames_fst_of_gt (self : FormFieldCollectionHelper)
    (hgt : SAL_MAX_INT32 < ((formFields self.mxModel.marks).length : Int)) :
    (getElementNames self).1 = [] := by
  have hlen : SAL_MAX_INT32.toNat < (formFields self.mxModel.marks).length := by
    unfold SAL_MAX_INT32 at hgt ⊢
    omega
  simp only [getElementNames]
  rw [lcl_getFieldmark_returned "" SAL_MAX_INT32 self.mxModel (some [])
    ((formFields self.mxModel.marks)[SAL_MAX_INT32.toNat]) (by decide) (le_refl _)
    (List.getElem?_eq_getElem hlen)]
  rfl

/-- The counterexample to C6 as stated: over the document of 2147483647
checkboxes `getElementNames` returns 2147483647 names, and `getCount` returns
0. -/
theorem getElementNames_length_ne_getCount_saturated :
    ((getElementNames (create saturatedDocument)).1.length : Int) = 2147483647
      ∧ (getCount (create saturatedDocument)).1 = 0 := by
  refine ⟨?_, getCount_saturatedDocument⟩
  unfold saturatedDocument create
  have hcap : ((formFields (checkboxDocument 2147483647).marks).length : Int)
      ≤ SAL_MAX_INT32 := by
    rw [length_formFields_checkboxDocument]
    decide
  rw [getElementNames_fst ⟨checkboxDocument 2147483647, none⟩ hcap, List.length_map,
    length_formFields_checkboxDocument]
  rfl

/-- C6, amended: for a document whose number of form fields is not exactly
`SAL_MAX_INT32`, `getElementNames` returns a list of exactly `getCount` entries,
whose `i`-th entry is the name of the mark that `getByIndex i` returns; every
entry is the name of a qualifying mark of the document. -/
theorem getElementNames_matches_getByIndex (self : FormFieldCollectionHelper)
    (hne : (self.mxModel.qualifyingMarks.length : Int) ≠ SAL_MAX_INT32) :
    ((getElementNames self).1.length : Int) = (getCount self).1
      ∧ (∀ i : Nat, (i : Int) < (getCount self).1 →
          ∃ pMark, (getByIndex self i).1 = .ok ⟨pMark⟩
            ∧ (getElementNames self).1[i]? = some pMark.name)
      ∧ ∀ aName ∈ (getElementNames self).1,
          ∃ mark ∈ self.mxModel.marks, mark.isQualifying ∧ mark.name = aName := by
  rw [XModel.qualifyingMarks_eq_formFields] at hne
  rcases lt_or_gt_of_ne hne with hcap | hgt
  · have hcount : (getCount self).1 = ((formFields self.mxModel.marks).length : Int) := by
      rw [getCount_fst, if_pos hcap]
    rw [hcount, getElementNames_fst self hcap.le]
    refine ⟨by simp, ?_, ?_⟩
    · intro i hi
      have hlen : i < (formFields self.mxModel.marks).length := by omega
      refine ⟨(formFields self.mxModel.marks)[i], ?_, ?_⟩
      · rw [getByIndex_of_getElem? self i _ (by omega) (by omega)]
        simp [List.getElem?_eq_getElem hlen]
      · simp [List.getElem?_eq_getElem hlen]
    · intro aName hmem
      obtain ⟨mark, hmark, hname⟩ := List.mem_map.mp hmem
      rw [mem_formFields, isFormFieldType_iff_isQualifying] at hmark
      exact ⟨mark, hmark.1, hmark.2, hname⟩
  · have hcount : (getCount self).1 = 0 := by
      rw [getCount_fst, if_neg (not_lt.mpr hgt.le)]
    rw [hcount, getElementNames_fst_of_gt self hgt]
    refine ⟨rfl, ?_, ?_⟩
    · intro i hi
      omega
    · intro aName hmem
      cases hmem

/-- The witness of C6: the names of the scenario document. -/
theorem getElementNames_matches_getByIndex_witness :
    ((getElementNames (create scenarioDocument)).1.length : Int)
        = (getCount (create scenarioDocument)).1
      ∧ ∃ pMark, (getByIndex (create scenarioDocument) (1 : Nat)).1 = .ok ⟨pMark⟩
          ∧ (getElementNames (create scenarioDocument)).1[1]? = some pMark.name :=
  ⟨(getElementNames_matches_getByIndex (create scenarioDocument) (by decide)).1,
    (getElementNames_matches_getByIndex (create scenarioDocument) (by decide)).2.1 1
      (by decide)⟩

/-! ## Enumeration -/

open FormFieldsEnumWrapper

theorem hasMoreElements_eq (self : FormFieldsEnumWrapper) :
    hasMoreElements self = (decide (self.nIndex < (getCount self.mxIndexAccess).1), self) :=
  rfl

theorem nextElement_of_lt (self : FormFieldsEnumWrapper)
    (h : self.nIndex < (getCount self.mxIndexAccess).1) :
    nextElement self
      = ((getByIndex self.mxIndexAccess self.nIndex).1,
          ⟨(getByIndex self.mxIndexAccess self.nIndex).2, wrapInt32 (self.nIndex + 1)⟩) := by
  simp only [nextElement]
  rw [if_pos h]
  rfl

theorem nextElement_of_not_lt (self : FormFieldsEnumWrapper)
    (h : ¬ self.nIndex < (getCount self.mxIndexAccess).1) :
    nextElement self = (.error .NoSuchElementException, self) := by
  simp only [nextElement]
  rw [if_neg h]
  rfl

/-- The value of `getCount` is a function of the document. -/
theorem getCount_fst_congr {self other : FormFieldCollectionHelper}
    (h : self.mxModel = other.mxModel) : (getCount self).1 = (getCount other).1 := by
  rw [getCount_fst, getCount_fst, h]

/-- The value of `getByIndex` is a function of the document and the index. -/
theorem getByIndex_fst_congr {self other : FormFieldCollectionHelper}
    (h : self.mxModel = other.mxModel) (Index : Int) :
    (getByIndex self Index).1 = (getByIndex other Index).1 := by
  rw [getByIndex_fst, getByIndex_fst, h]

/-- The value of `getCount` lies between 0 and `SAL_MAX_INT32`, the latter
excluded. -/
theorem getCount_fst_range (self : FormFieldCollectionHelper) :
    0 ≤ (getCount self).1 ∧ (getCount self).1 < SAL_MAX_INT32 := by
  rw [getCount_fst]
  split
  · constructor <;> omega
  · constructor <;> decide

/-- While elements remain, the position of a new enumeration counts the calls of
`nextElement`, and the enumeration keeps referring to the same document. -/
theorem afterNextElements_createEnumeration (self : FormFieldCollectionHelper) (k : Nat)
    (hk : (k : Int) ≤ (getCount self).1) :
    ((createEnumeration self).afterNextElements k).nIndex = k
      ∧ ((createEnumeration self).afterNextElements k).mxIndexAccess.mxModel
          = self.mxModel := by
  induction k with
  | zero => exact ⟨rfl, rfl⟩
  | succ k ih =>
    obtain ⟨hidx, hmodel⟩ := ih (by omega)
    have hcount := getCount_fst_congr hmodel
    have hrange := getCount_fst_range self
    have hlt : ((createEnumeration self).afterNextElements k).nIndex
        < (getCount ((createEnumeration self).afterNextElements k).mxIndexAccess).1 := by
      rw [hidx, hcount]
      omega
    simp only [afterNextElements]
    rw [nextElement_of_lt _ hlt]
    constructor
    · simp only [hidx]
      rw [wrapInt32_eq_self (by omega) (by unfold SAL_MAX_INT32 at hrange; omega)]
      omega
    · simp only [getByIndex_snd]
      exact hmodel

/-- C7: on a document that does not change, a new enumeration starts at position
0 and yields exactly `getCount` elements: for `k < getCount`, after `k` calls of
`nextElement` the call `hasMoreElements` returns true and the next call of
`nextElement` returns what `getByIndex k` returns, which is the `k`-th
qualifying mark; after `getCount` calls `hasMoreElements` returns false and
`nextElement` throws the no-such-element exception. -/
theorem enumeration_yields_getByIndex_results (self : FormFieldCollectionHelper) :
    (createEnumeration self).nIndex = 0
      ∧ (∀ k : Nat, (k : Int) < (getCount self).1 →
          (hasMoreElements ((createEnumeration self).afterNextElements k)).1 = true
            ∧ (nextElement ((createEnumeration self).afterNextElements k)).1
                = (getByIndex self k).1
            ∧ ∃ pMark, self.mxModel.qualifyingMarks[k]? = some pMark
                ∧ (nextElement ((createEnumeration self).afterNextElements k)).1
                    = .ok ⟨pMark⟩)
      ∧ (hasMoreElements
          ((createEnumeration self).afterNextElements (getCount self).1.toNat)).1 = false
      ∧ (nextElement
          ((createEnumeration self).afterNextElements (getCount self).1.toNat)).1
            = .error .NoSuchElementException := by
  have hrange := getCount_fst_range self
  refine ⟨rfl, ?_, ?_, ?_⟩
  · intro k hk
    obtain ⟨hidx, hmodel⟩ := afterNextElements_createEnumeration self k hk.le
    have hlt : ((createEnumeration self).afterNextElements k).nIndex
        < (getCount ((createEnumeration self).afterNextElements k).mxIndexAccess).1 := by
      rw [hidx, getCount_fst_congr hmodel]
      exact hk
    have hnext : (nextElement ((createEnumeration self).afterNextElements k)).1
        = (getByIndex self k).1 := by
      rw [nextElement_of_lt _ hlt, hidx]
      exact getByIndex_fst_congr hmodel k
    refine ⟨by simp [hasMoreElements_eq, hlt], hnext, ?_⟩
    rw [hnext]
    have h := (getByIndex_eq_qualifying_mark_at_aux self k (by omega) hk)
    simpa using h
  · obtain ⟨hidx, hmodel⟩ :=
      afterNextElements_createEnumeration self (getCount self).1.toNat (by omega)
    simp [hasMoreElements_eq, hidx, getCount_fst_congr hmodel]
  · obtain ⟨hidx, hmodel⟩ :=
      afterNextElements_createEnumeration self (getCount self).1.toNat (by omega)
    rw [nextElement_of_not_lt]
    rw [hidx, getCount_fst_congr hmodel]
    omega

/-- The witness of C7: the enumeration of the scenario document yields its two
form fields and is then exhausted. -/
theorem enumeration_yields_getByIndex_results_witness :
    (nextElement ((createEnumeration (create scenarioDocument)).afterNextElements 1)).1
        = (getByIndex (create scenarioDocument) 1).1
      ∧ (hasMoreElements
          ((createEnumeration (create scenarioDocument)).afterNextElements 2)).1 = false :=
  ⟨((enumeration_yields_getByIndex_results (create scenarioDocument)).2.1 1
      (by decide)).2.1,
    (enumeration_yields_getByIndex_results (create scenarioDocument)).2.2.1⟩

/-- An exhausted enumeration stays as it is under `nextElement`. -/
theorem afterNextElements_of_not_lt (self : FormFieldsEnumWrapper)
    (h : ¬ self.nIndex < (getCount self.mxIndexAccess).1) (k : Nat) :
    self.afterNextElements k = self := by
  induction k with
  | zero => rfl
  | succ k ih =>
    simp only [afterNextElements]
    rw [ih, nextElement_of_not_lt self h]

/-- C8: in every state of an enumeration, `nextElement` throws the
no-such-element exception if and only if `hasMoreElements` returns false, which
is when the position is at or beyond `getCount`; the failing call leaves the
enumeration as it was, position included, so every later call of `nextElement`
fails in the same way. -/
theorem nextElement_fails_iff_no_more_elements (self : FormFieldsEnumWrapper) :
    ((nextElement self).1 = .error .NoSuchElementException
        ↔ (hasMoreElements self).1 = false)
      ∧ ((hasMoreElements self).1 = false ↔ (getCount self.mxIndexAccess).1 ≤ self.nIndex)
      ∧ ((hasMoreElements self).1 = false →
          (nextElement self).2 = self
            ∧ (nextElement self).2.nIndex = self.nIndex
            ∧ ∀ k : Nat, (nextElement (self.afterNextElements k)).1
                = .error .NoSuchElementException) := by
  have hmore : (hasMoreElements self).1 = false
      ↔ (getCount self.mxIndexAccess).1 ≤ self.nIndex := by
    simp [hasMoreElements_eq]
  refine ⟨?_, hmore, ?_⟩
  · rw [hmore]
    constructor
    · intro hfail
      by_contra hlt
      rw [nextElement_of_lt self (by omega), getByIndex_fst] at hfail
      revert hfail
      cases (lcl_getFieldmark "" self.nIndex self.mxIndexAccess.mxModel none).pFieldmark <;>
        simp
    · intro hle
      rw [nextElement_of_not_lt self (by omega)]
  · intro hfalse
    have hnot : ¬ self.nIndex < (getCount self.mxIndexAccess).1 := by
      have := hmore.mp hfalse
      omega
    refine ⟨?_, ?_, ?_⟩
    · rw [nextElement_of_not_lt self hnot]
    · rw [nextElement_of_not_lt self hnot]
    · intro k
      rw [afterNextElements_of_not_lt self hnot k, nextElement_of_not_lt self hnot]

/-- The witness of C8: the enumeration of the scenario document at position 2. -/
theorem nextElement_fails_iff_no_more_elements_witness :
    (nextElement ⟨create scenarioDocument, 2⟩).2 = ⟨create scenarioDocument, 2⟩
      ∧ (nextElement ⟨create scenarioDocument, 2⟩).1 = .error .NoSuchElementException :=
  ⟨((nextElement_fails_iff_no_more_elements ⟨create scenarioDocument, 2⟩).2.2
      (by decide)).1,
    (nextElement_fails_iff_no_more_elements ⟨create scenarioDocument, 2⟩).1.mpr
      (by decide)⟩

/-! ## The unresolved document -/

/-- C9: when the document or its mark store cannot be resolved, the collection
behaves like one over the empty document: `getCount` returns 0, `hasByName` is
false for every name, `getElementNames` is empty and `getByIndex` throws the
index-out-of-bounds exception at every index; these are the results over a
document without marks. -/
theorem unresolved_document_like_empty (self : FormFieldCollectionHelper)
    (h : self.mxModel.GetDoc = none
      ∨ ∃ pDoc, self.mxModel.GetDoc = some pDoc ∧ pDoc.getIDocumentMarkAccess = none) :
    (getCount self).1 = 0
      ∧ (∀ aName, (hasByName self aName).1 = false)
      ∧ (getElementNames self).1 = []
      ∧ (∀ Index, (getByIndex self Index).1 = .error .IndexOutOfBoundsException)
      ∧ (getCount self).1 = (getCount ⟨XModel.ofMarks [], self.m_pCache⟩).1
      ∧ (∀ aName, (hasByName self aName).1
          = (hasByName ⟨XModel.ofMarks [], self.m_pCache⟩ aName).1)
      ∧ (getElementNames self).1 = (getElementNames ⟨XModel.ofMarks [], self.m_pCache⟩).1
      ∧ (∀ Index, (getByIndex self Index).1
          = (getByIndex ⟨XModel.ofMarks [], self.m_pCache⟩ Index).1) := by
  obtain ⟨xModel, pCache⟩ := self
  have hun : xModel = ⟨none⟩ ∨ xModel = ⟨some ⟨none⟩⟩ := by
    rcases xModel with ⟨_ | ⟨_ | marks⟩⟩
    · exact Or.inl rfl
    · exact Or.inr rfl
    · rcases h with h | ⟨pDoc, hdoc, hacc⟩
      · cases h
      · cases hdoc
        cases hacc
  have hloc : ∀ rName rIndex pElementNames,
      lcl_getFieldmark rName rIndex xModel pElementNames = ⟨none, rIndex, pElementNames⟩ :=
    fun rName rIndex pElementNames => lcl_getFieldmark_unresolved rName rIndex pElementNames hun
  have hcount : (getCount ⟨xModel, pCache⟩).1 = 0 := by simp [getCount, hloc]
  have hhas : ∀ aName, (hasByName ⟨xModel, pCache⟩ aName).1 = false := by
    intro aName
    simp [hasByName, hloc]
  have hnames : (getElementNames ⟨xModel, pCache⟩).1 = [] := by
    simp [getElementNames, hloc]
  have hidx : ∀ Index,
      (getByIndex ⟨xModel, pCache⟩ Index).1 = .error .IndexOutOfBoundsException := by
    intro Index
    rw [getByIndex_fst]
    simp [hloc]
  refine ⟨hcount, hhas, hnames, hidx, ?_, ?_, ?_, ?_⟩
  · rw [hcount]
    rfl
  · intro aName
    rw [hhas]
    rfl
  · rw [hnames]
    rfl
  · intro Index
    rw [hidx, getByIndex_fst]
    rfl

/-- The witness of C9: the model handle without a document and the document
without a mark store. -/
theorem unresolved_document_like_empty_witness :
    (getCount (create ⟨none⟩)).1 = 0 ∧ (getCount (create ⟨some ⟨none⟩⟩)).1 = 0
      ∧ (getByIndex (create ⟨none⟩) 0).1 = .error .IndexOutOfBoundsException
      ∧ (getElementNames (create ⟨some ⟨none⟩⟩)).1 = [] :=
  ⟨(unresolved_document_like_empty (create ⟨none⟩) (Or.inl rfl)).1,
    (unresolved_document_like_empty (create ⟨some ⟨none⟩⟩) (Or.inr ⟨⟨none⟩, rfl, rfl⟩)).1,
    (unresolved_document_like_empty (create ⟨none⟩) (Or.inl rfl)).2.2.2.1 0,
    (unresolved_document_like_empty (create ⟨some ⟨none⟩⟩)
      (Or.inr ⟨⟨none⟩, rfl, rfl⟩)).2.2.1⟩

/-! ## The cache -/

/-- A lookup call leaves the document of the collection as it is. -/
theorem afterLookups_mxModel (self : FormFieldCollectionHelper) (calls : List LookupCall) :
    (self.afterLookups calls).mxModel = self.mxModel := by
  induction calls generalizing self with
  | nil => rfl
  | cons call rest ih =>
    simp only [afterLookups, List.foldl_cons] at ih ⊢
    rw [ih]
    cases call with
    | hasByName aName => rfl
    | getByIndex Index => rw [afterLookup, getByIndex_snd]

/-- C10: the outcome of `getByName` does not depend on the cache before the call:
over the same document, two collections with any two cache contents give the
same result (the same mark or the same no-such-element exception) and are left
with the same cache; in particular a collection reached from a new one by any
sequence of `hasByName` and `getByIndex` calls, found or not, behaves as the new
one does. -/
theorem getByName_independent_of_cache (xModel : XModel) (aName : OUString) :
    (∀ pCache1 pCache2 : Option Mark,
        getByName ⟨xModel, pCache1⟩ aName = getByName ⟨xModel, pCache2⟩ aName)
      ∧ ∀ calls : List LookupCall,
          getByName ((create xModel).afterLookups calls) aName
            = getByName (create xModel) aName := by
  constructor
  · intro pCache1 pCache2
    rw [getByName_eq, getByName_eq]
  · intro calls
    rw [getByName_eq, getByName_eq, afterLookups_mxModel]

/-- The witness of C10: in the scenario document, `getByName` after a failed and
a successful lookup. -/
theorem getByName_independent_of_cache_witness :
    getByName ((create scenarioDocument).afterLookups [.getByIndex 0, .hasByName "x"]) "c"
      = (some (.ok ⟨⟨3, "C", .TEXT_FIELDMARK⟩⟩),
          ⟨scenarioDocument, some ⟨3, "C", .TEXT_FIELDMARK⟩⟩) := by
  rw [(getByName_independent_of_cache scenarioDocument "c").2]
  decide

/-! ## The position slot of the locator -/

/-- The counterexample to C11 as stated: a positional request at index 5 on the
scenario document, which has two form fields, returns a null pointer and leaves
2, not 5, in the position slot. -/
theorem positional_search_rewrites_position_out_of_range :
    (lcl_getFieldmark "" 5 scenarioDocument none).pFieldmark = none
      ∧ (lcl_getFieldmark "" 5 scenarioDocument none).rIndex = 2 := by
  decide

/-- C11, amended: for every positional request to the locator on a document
(the position is a `sal_Int32` value that is not negative), when a mark is
returned the position slot holds the same value on return as on entry; when a
null pointer is returned because the index is out of range, the position slot
holds the number of qualifying marks, which is at most the value on entry. -/
theorem positional_search_position_slot (rName : OUString) (rIndex : Int)
    (marks : List Mark) (pElementNames : Option (List OUString))
    (h0 : 0 ≤ rIndex) (hmax : rIndex ≤ SAL_MAX_INT32) :
    (∀ pMark, (lcl_getFieldmark rName rIndex (XModel.ofMarks marks) pElementNames).pFieldmark
          = some pMark →
        (lcl_getFieldmark rName rIndex (XModel.ofMarks marks) pElementNames).rIndex = rIndex
          ∧ (XModel.ofMarks marks).qualifyingMarks[rIndex.toNat]? = some pMark)
      ∧ ((lcl_getFieldmark rName rIndex (XModel.ofMarks marks) pElementNames).pFieldmark
          = none →
        (lcl_getFieldmark rName rIndex (XModel.ofMarks marks) pElementNames).rIndex
            = ((XModel.ofMarks marks).qualifyingMarks.length : Int)
          ∧ ((XModel.ofMarks marks).qualifyingMarks.length : Int) ≤ rIndex) := by
  rw [XModel.qualifyingMarks_eq_formFields]
  by_cases hlt : rIndex.toNat < (formFields (XModel.ofMarks marks).marks).length
  · rw [lcl_getFieldmark_returned rName rIndex (XModel.ofMarks marks) pElementNames _ h0 hmax
      (List.getElem?_eq_getElem hlt)]
    refine ⟨?_, ?_⟩
    · intro pMark hp
      refine ⟨rfl, ?_⟩
      rw [List.getElem?_eq_getElem hlt]
      exact hp
    · intro hp
      cases hp
  · have hle : ((formFields (XModel.ofMarks marks).marks).length : Int) ≤ rIndex := by omega
    rw [lcl_getFieldmark_finished rName rIndex (XModel.ofMarks marks) pElementNames hle
      (le_trans hle hmax) ⟨marks, rfl⟩]
    refine ⟨?_, ?_⟩
    · intro pMark hp
      cases hp
    · intro _
      exact ⟨rfl, hle⟩

/-- The witness of C11: the positional requests at indices 1 and 5 on the
scenario document. -/
theorem positional_search_position_slot_witness :
    (lcl_getFieldmark "" 1 scenarioDocument none).rIndex = 1
      ∧ (lcl_getFieldmark "" 5 scenarioDocument none).rIndex
          = (scenarioDocument.qualifyingMarks.length : Int) :=
  ⟨((positional_search_position_slot "" 1
      [⟨1, "A", .CHECKBOX_FIELDMARK⟩, ⟨2, "B", .BOOKMARK⟩, ⟨3, "C", .TEXT_FIELDMARK⟩] none
      (by decide) (by decide)).1 ⟨3, "C", .TEXT_FIELDMARK⟩ (by decide)).1,
    ((positional_search_position_slot "" 5
      [⟨1, "A", .CHECKBOX_FIELDMARK⟩, ⟨2, "B", .BOOKMARK⟩, ⟨3, "C", .TEXT_FIELDMARK⟩] none
      (by decide) (by decide)).2 (by decide)).1⟩

/-- The element `find?` returns sits at the position `findIdx` returns, and no
element before it passes the test. -/
theorem find?_eq_some_findIdx {α : Type} (p : α → Bool) (l : List α) (a : α)
    (h : l.find? p = some a) :
    l[l.findIdx p]? = some a ∧ p a = true
      ∧ ∀ j, j < l.findIdx p → ∀ x, l[j]? = some x → p x = false := by
  induction l with
  | nil => cases h
  | cons b rest ih =>
    cases hb : p b
    · rw [List.find?_cons_of_neg _ (by simp [hb])] at h
      obtain ⟨hget, hpa, hbefore⟩ := ih h
      rw [List.findIdx_cons, hb]
      refine ⟨by simpa using hget, hpa, ?_⟩
      intro j hj x hx
      cases j with
      | zero =>
        simp only [List.getElem?_cons_zero, Option.some.injEq] at hx
        rw [← hx]
        exact hb
      | succ j =>
        rw [List.getElem?_cons_succ] at hx
        exact hbefore j (by simpa using hj) x hx
    · rw [List.find?_cons_of_pos _ hb] at h
      have hba : b = a := Option.some.inj h
      subst hba
      refine ⟨by simp [List.findIdx_cons, hb], hb, ?_⟩
      intro j hj
      simp [List.findIdx_cons, hb] at hj

/-- Only the empty name is equal to the empty name up to the case of the ASCII
letters. -/
theorem equalsIgnoreAsciiCase_empty (a : OUString) :
    equalsIgnoreAsciiCase a "" = true ↔ a = "" := by
  constructor
  · intro h
    simp only [equalsIgnoreAsciiCase, Bool.and_eq_true, beq_iff_eq] at h
    have hlen : a.data.length = 0 := h.1
    exact String.ext (List.length_eq_zero.mp hlen)
  · intro h
    rw [h]
    decide

/-- The form field at position `k` of a document of more than `k` checkboxes. -/
theorem getElem?_formFields_checkboxDocument (n k : Nat) (h : k < n) :
    (formFields (checkboxDocument n).marks)[k]? = some (checkboxAt k) := by
  rw [formFields_checkboxDocument, marks_checkboxDocument, List.getElem?_map,
    List.getElem?_range h]
  rfl

/-- The counterexample to C13 as stated: in the document whose only mark is a
text input with the empty name, the name search for the empty name returns that
mark and `hasByName` returns true for the empty name; and in a document of
2147483648 checkboxes the locator with the totals sentinel returns the checkbox
at position 2147483647 instead of a null pointer. -/
theorem empty_name_search_finds_empty_named_field :
    (lcl_getFieldmark "" (-1) emptyNameDocument none).pFieldmark
        = some ⟨7, "", .TEXT_FIELDMARK⟩
      ∧ (hasByName (create emptyNameDocument) "").1 = true
      ∧ (lcl_getFieldmark "" SAL_MAX_INT32 (checkboxDocument 2147483648) none).pFieldmark
          = some (checkboxAt 2147483647) := by
  refine ⟨by decide, by decide, ?_⟩
  have hnat : SAL_MAX_INT32.toNat = 2147483647 := rfl
  rw [lcl_getFieldmark_returned "" SAL_MAX_INT32 (checkboxDocument 2147483648) none
    (checkboxAt 2147483647) (by decide) (le_refl _)
    (by rw [hnat]; exact getElem?_formFields_checkboxDocument _ _ (by decide))]

/-- C13, amended: for every document with at most `SAL_MAX_INT32` form fields,
the locator called with the empty name and the totals sentinel returns a null
pointer and leaves the number of qualifying marks in the position slot; when no
qualifying mark has the empty name, the locator called with the empty name and
the search sentinel does the same, a pure count pass; and `hasByName` is false
for the empty name exactly when no qualifying mark has the empty name. -/
theorem empty_name_search_is_count_pass (marks : List Mark)
    (pElementNames : Option (List OUString))
    (hcap : ((XModel.ofMarks marks).qualifyingMarks.length : Int) ≤ SAL_MAX_INT32) :
    lcl_getFieldmark "" SAL_MAX_INT32 (XModel.ofMarks marks) pElementNames
        = ⟨none, (XModel.ofMarks marks).qualifyingMarks.length,
            pElementNames.map (fun _ => (XModel.ofMarks marks).qualifyingMarks.map Mark.name)⟩
      ∧ ((∀ mark ∈ (XModel.ofMarks marks).qualifyingMarks, mark.name ≠ "") →
          lcl_getFieldmark "" (-1) (XModel.ofMarks marks) pElementNames
            = lcl_getFieldmark "" SAL_MAX_INT32 (XModel.ofMarks marks) pElementNames)
      ∧ ∀ pCache : Option Mark,
          ((hasByName ⟨XModel.ofMarks marks, pCache⟩ "").1 = false
            ↔ ∀ mark ∈ (XModel.ofMarks marks).qualifyingMarks, mark.name ≠ "") := by
  rw [XModel.qualifyingMarks_eq_formFields] at hcap ⊢
  have htotals := lcl_getFieldmark_finished "" SAL_MAX_INT32 (XModel.ofMarks marks)
    pElementNames hcap hcap ⟨marks, rfl⟩
  have hnone : (∀ mark ∈ formFields (XModel.ofMarks marks).marks, mark.name ≠ "")
      ↔ (formFields (XModel.ofMarks marks).marks).find? (nameMatches "") = none := by
    rw [List.find?_eq_none]
    constructor
    · intro h mark hmem
      simpa [nameMatches, equalsIgnoreAsciiCase_empty] using h mark hmem
    · intro h mark hmem
      simpa [nameMatches, equalsIgnoreAsciiCase_empty] using h mark hmem
  refine ⟨htotals, ?_, ?_⟩
  · intro hnames
    rw [htotals, lcl_getFieldmark_search "" (-1) (XModel.ofMarks marks) pElementNames
      (by decide) hcap ⟨marks, rfl⟩, hnone.mp hnames]
  · intro pCache
    rw [hasByName_eq ⟨XModel.ofMarks marks, pCache⟩ "" hcap, hnone]
    cases (formFields (XModel.ofMarks marks).marks).find? (nameMatches "") <;> simp

/-- The witness of C13: the locator with the empty name on the scenario
document. -/
theorem empty_name_search_is_count_pass_witness :
    lcl_getFieldmark "" (-1) scenarioDocument none
      = lcl_getFieldmark "" SAL_MAX_INT32 scenarioDocument none :=
  (empty_name_search_is_count_pass
    [⟨1, "A", .CHECKBOX_FIELDMARK⟩, ⟨2, "B", .BOOKMARK⟩, ⟨3, "C", .TEXT_FIELDMARK⟩] none
    (by decide)).2.1 (by decide)

/-! ## What the cache holds -/

/-- A mark the loop returns is a form field among the marks it went through. -/
theorem fieldmarkLoop_returned_mem (rName : OUString) (rIndex : Int) (bElementNames : Bool)
    (marks : List Mark) (nCounter : Int) (vElementNames : List OUString) (pMark : Mark)
    (rIndex1 : Int)
    (h : fieldmarkLoop rName rIndex bElementNames marks nCounter vElementNames
      = .returned pMark rIndex1) :
    pMark ∈ marks ∧ isFormFieldType pMark.type = true := by
  induction marks generalizing nCounter vElementNames with
  | nil => simp [fieldmarkLoop] at h
  | cons mark rest ih =>
    cases hty : isFormFieldType mark.type
    · rw [fieldmarkLoop_cons_of_other _ _ _ _ _ _ hty] at h
      exact ⟨List.mem_cons_of_mem _ (ih _ _ h).1, (ih _ _ h).2⟩
    · rw [fieldmarkLoop_cons_of_formField _ _ _ _ _ _ hty] at h
      split at h
      · cases h
        exact ⟨List.mem_cons_self _ _, hty⟩
      · split at h
        · cases h
          exact ⟨List.mem_cons_self _ _, hty⟩
        · exact ⟨List.mem_cons_of_mem _ (ih _ _ h).1, (ih _ _ h).2⟩

/-- A mark the locator returns is a qualifying mark of the document. -/
theorem lcl_getFieldmark_pFieldmark_mem (rName : OUString) (rIndex : Int) (xModel : XModel)
    (pElementNames : Option (List OUString)) (pMark : Mark)
    (h : (lcl_getFieldmark rName rIndex xModel pElementNames).pFieldmark = some pMark) :
    pMark ∈ xModel.marks ∧ pMark.isQualifying := by
  rcases xModel.unresolved_or_resolved with hun | ⟨marks, rfl⟩
  · rw [lcl_getFieldmark_unresolved _ _ _ hun] at h
    cases h
  · simp only [lcl_getFieldmark] at h
    cases hloop : fieldmarkLoop rName rIndex pElementNames.isSome marks 0 [] with
    | returned pMark1 rIndex1 =>
      rw [hloop] at h
      have hp : pMark1 = pMark := Option.some.inj h
      subst hp
      obtain ⟨hmem, hty⟩ := fieldmarkLoop_returned_mem _ _ _ _ _ _ _ _ hloop
      exact ⟨hmem, (isFormFieldType_iff_isQualifying _).mp hty⟩
    | finished nCounter vElementNames =>
      rw [hloop] at h
      cases h

/-- C14: after every call of `hasByName` or `getByIndex`, successful or failing,
the cache of the collection holds what the locator returned in that call, a
qualifying mark of the document or a null pointer; a call that fails leaves a
null pointer in the cache, whatever the cache held before. The calls `getCount`,
`getElementNames` and `hasElements` leave the collection, its cache included, as
it was. -/
theorem cache_holds_locator_result (self : FormFieldCollectionHelper) :
    (∀ aName : OUString,
        (hasByName self aName).2.m_pCache
            = (lcl_getFieldmark aName (-1) self.mxModel none).pFieldmark
          ∧ ((hasByName self aName).1 = true
              ↔ ∃ pMark, (hasByName self aName).2.m_pCache = some pMark)
          ∧ ((hasByName self aName).1 = false → (hasByName self aName).2.m_pCache = none)
          ∧ ∀ pMark, (hasByName self aName).2.m_pCache = some pMark →
              pMark ∈ self.mxModel.marks ∧ pMark.isQualifying)
      ∧ (∀ Index : Int,
          (getByIndex self Index).2.m_pCache
              = (lcl_getFieldmark "" Index self.mxModel none).pFieldmark
            ∧ (∀ pMark, (getByIndex self Index).1 = .ok ⟨pMark⟩
                ↔ (getByIndex self Index).2.m_pCache = some pMark)
            ∧ ((getByIndex self Index).1 = .error .IndexOutOfBoundsException
                → (getByIndex self Index).2.m_pCache = none)
            ∧ ∀ pMark, (getByIndex self Index).2.m_pCache = some pMark →
                pMark ∈ self.mxModel.marks ∧ pMark.isQualifying)
      ∧ (getCount self).2 = self
      ∧ (getElementNames self).2 = self
      ∧ (hasElements self).2 = self := by
  refine ⟨?_, ?_, rfl, rfl, rfl⟩
  · intro aName
    rw [hasByName_eq_locator]
    refine ⟨rfl, ?_, ?_, ?_⟩
    · cases (lcl_getFieldmark aName (-1) self.mxModel none).pFieldmark <;> simp
    · cases (lcl_getFieldmark aName (-1) self.mxModel none).pFieldmark <;> simp
    · intro pMark hp
      exact lcl_getFieldmark_pFieldmark_mem aName (-1) self.mxModel none pMark hp
  · intro Index
    rw [getByIndex_fst, getByIndex_snd]
    refine ⟨rfl, ?_, ?_, ?_⟩
    · intro pMark
      cases (lcl_getFieldmark "" Index self.mxModel none).pFieldmark <;> simp
    · cases (lcl_getFieldmark "" Index self.mxModel none).pFieldmark <;> simp
    · intro pMark hp
      exact lcl_getFieldmark_pFieldmark_mem "" Index self.mxModel none pMark hp

/-- The witness of C14: on the scenario document with the mark `A` in the cache,
a failed `hasByName` leaves a null pointer in the cache. -/
theorem cache_holds_locator_result_witness :
    (hasByName ⟨scenarioDocument, some ⟨1, "A", .CHECKBOX_FIELDMARK⟩⟩ "b").2.m_pCache
      = none :=
  ((cache_holds_locator_result ⟨scenarioDocument, some ⟨1, "A", .CHECKBOX_FIELDMARK⟩⟩).1
    "b").2.2.1 (by decide)

/-! ## Negative indices -/

/-- The name search for `a` on a document of checkboxes named `A` returns the
first checkbox and leaves 0 in the position slot. -/
theorem lcl_getFieldmark_search_checkboxDocument (n : Nat) (hn : 0 < n)
    (pElementNames : Option (List OUString)) :
    lcl_getFieldmark "a" (-1) (checkboxDocument n) pElementNames
      = ⟨some (checkboxAt 0), 0, pElementNames⟩ := by
  obtain ⟨k, rfl⟩ := Nat.exists_eq_succ_of_ne_zero (Nat.pos_iff_ne_zero.mp hn)
  have hty : isFormFieldType (checkboxAt 0).type = true := rfl
  simp only [lcl_getFieldmark, checkboxDocument, XModel.ofMarks]
  rw [List.range_succ_eq_map, List.map_cons,
    fieldmarkLoop_cons_of_formField _ _ _ _ _ _ hty, if_pos ⟨by decide, by decide⟩]

/-- The counterexample to C16 as stated: on the document of 2147483647
checkboxes named `A` the name search for `a` returns the first checkbox and
writes position 0, and `getCount` returns 0, so that the position is not below
the count. -/
theorem name_search_position_not_below_getCount_saturated :
    (lcl_getFieldmark "a" (-1) saturatedDocument none).pFieldmark = some (checkboxAt 0)
      ∧ (lcl_getFieldmark "a" (-1) saturatedDocument none).rIndex = 0
      ∧ (getCount (create saturatedDocument)).1 = 0 := by
  refine ⟨?_, ?_, getCount_saturatedDocument⟩
  · unfold saturatedDocument
    rw [lcl_getFieldmark_search_checkboxDocument 2147483647 (by decide) none]
  · unfold saturatedDocument
    rw [lcl_getFieldmark_search_checkboxDocument 2147483647 (by decide) none]

/-- C16, amended: for every document with fewer than `SAL_MAX_INT32` form fields
and every name, if the name search of the locator returns a mark and writes
position `p`, then `0 ≤ p < getCount`, the positional search of the locator at
`p` returns the same mark, and the entry of `getElementNames` at `p` matches the
name up to the case of the ASCII letters, hence up to the case of letters. -/
theorem name_search_round_trip (self : FormFieldCollectionHelper) (rName : OUString)
    (pElementNames : Option (List OUString)) (pMark : Mark)
    (hcap : (self.mxModel.qualifyingMarks.length : Int) < SAL_MAX_INT32)
    (hfound : (lcl_getFieldmark rName (-1) self.mxModel pElementNames).pFieldmark
      = some pMark) :
    0 ≤ (lcl_getFieldmark rName (-1) self.mxModel pElementNames).rIndex
      ∧ (lcl_getFieldmark rName (-1) self.mxModel pElementNames).rIndex < (getCount self).1
      ∧ (∀ (rName1 : OUString) (pElementNames1 : Option (List OUString)),
          (lcl_getFieldmark rName1
              (lcl_getFieldmark rName (-1) self.mxModel pElementNames).rIndex
              self.mxModel pElementNames1).pFieldmark = some pMark)
      ∧ ∃ aName,
          (getElementNames self).1[
              (lcl_getFieldmark rName (-1) self.mxModel pElementNames).rIndex.toNat]?
            = some aName
          ∧ equalsIgnoreAsciiCase aName rName = true
          ∧ equalsIgnoreCase aName rName = true := by
  rw [XModel.qualifyingMarks_eq_formFields] at hcap
  rcases self.mxModel.unresolved_or_resolved with hun | hres
  · rw [lcl_getFieldmark_unresolved _ _ _ hun] at hfound
    cases hfound
  · rw [lcl_getFieldmark_search rName (-1) self.mxModel pElementNames (by decide) hcap.le
      hres] at hfound ⊢
    cases hfind : (formFields self.mxModel.marks).find? (nameMatches rName) with
    | none =>
      rw [hfind] at hfound
      cases hfound
    | some pMark1 =>
      rw [hfind] at hfound
      have hp : pMark1 = pMark := Option.some.inj hfound
      subst hp
      obtain ⟨hget, hmatch, _⟩ := find?_eq_some_findIdx _ _ _ hfind
      have hlt : (formFields self.mxModel.marks).findIdx (nameMatches rName)
          < (formFields self.mxModel.marks).length := by
        by_contra hge
        rw [List.getElem?_eq_none (not_lt.mp hge)] at hget
        cases hget
      have hname : equalsIgnoreAsciiCase pMark1.name rName = true := by
        simpa [nameMatches] using hmatch
      simp only
      refine ⟨Int.natCast_nonneg _, ?_, ?_, pMark1.name, ?_, hname,
        equalsIgnoreCase_of_equalsIgnoreAsciiCase _ _ hname⟩
      · rw [getCount_fst, if_pos hcap]
        exact_mod_cast hlt
      · intro rName1 pElementNames1
        rw [lcl_getFieldmark_returned rName1 _ self.mxModel pElementNames1 pMark1
          (Int.natCast_nonneg _) (by omega) (by rw [Int.toNat_ofNat]; exact hget)]
      · rw [getElementNames_fst self hcap.le, Int.toNat_ofNat, List.getElem?_map, hget]
        rfl

/-- The witness of C16: the name search for `c` on the scenario document. -/
theorem name_search_round_trip_witness :
    (lcl_getFieldmark "c" (-1) scenarioDocument none).rIndex
        < (getCount (create scenarioDocument)).1
      ∧ (lcl_getFieldmark "" (lcl_getFieldmark "c" (-1) scenarioDocument none).rIndex
          scenarioDocument none).pFieldmark = some ⟨3, "C", .TEXT_FIELDMARK⟩ :=
  ⟨(name_search_round_trip (create scenarioDocument) "c" none ⟨3, "C", .TEXT_FIELDMARK⟩
      (by decide) (by decide)).2.1,
    (name_search_round_trip (create scenarioDocument) "c" none ⟨3, "C", .TEXT_FIELDMARK⟩
      (by decide) (by decide)).2.2.1 "" none⟩

/-! ## The letters that name matching folds -/

/-- C18: in every state of the collection and for every input, `getByIndex` and
`getByName` build the field handle from the cache only after the cache has been
assigned a non-null result of the locator in the same call: the handle wraps the
mark the locator returned in that call, which the cache then holds, whatever the
cache held before; when the locator returns a null pointer the call throws, and
`getByName` never ends in the dereference of a null cache. -/
theorem no_dereference_of_null_cache (self : FormFieldCollectionHelper) :
    (∀ Index : Int,
        ((lcl_getFieldmark "" Index self.mxModel none).pFieldmark = none →
            (getByIndex self Index).1 = .error .IndexOutOfBoundsException)
          ∧ ∀ xField, (getByIndex self Index).1 = .ok xField →
              (lcl_getFieldmark "" Index self.mxModel none).pFieldmark
                  = some xField.rFieldmark
                ∧ (getByIndex self Index).2.m_pCache = some xField.rFieldmark)
      ∧ (∀ aName : OUString,
          (getByName self aName).1 ≠ none
            ∧ ((lcl_getFieldmark aName (-1) self.mxModel none).pFieldmark = none →
                (getByName self aName).1 = some (.error .NoSuchElementException))
            ∧ ∀ xField, (getByName self aName).1 = some (.ok xField) →
                (lcl_getFieldmark aName (-1) self.mxModel none).pFieldmark
                    = some xField.rFieldmark
                  ∧ (getByName self aName).2.m_pCache = some xField.rFieldmark)
      ∧ ∀ (pCache : Option Mark) (Index : Int) (aName : OUString),
          (getByIndex ⟨self.mxModel, pCache⟩ Index).1 = (getByIndex self Index).1
            ∧ (getByName ⟨self.mxModel, pCache⟩ aName).1 = (getByName self aName).1 := by
  refine ⟨?_, ?_, ?_⟩
  · intro Index
    rw [getByIndex_fst, getByIndex_snd]
    cases (lcl_getFieldmark "" Index self.mxModel none).pFieldmark with
    | none =>
      refine ⟨fun _ => rfl, ?_⟩
      intro xField h
      cases h
    | some pMark =>
      refine ⟨?_, ?_⟩
      · intro h
        cases h
      · intro xField h
        have hx : (⟨pMark⟩ : SwVbaFormField) = xField := Except.ok.inj h
        rw [← hx]
        exact ⟨rfl, rfl⟩
  · intro aName
    rw [getByName_eq]
    cases (lcl_getFieldmark aName (-1) self.mxModel none).pFieldmark with
    | none =>
      refine ⟨?_, ?_, ?_⟩
      · intro h
        cases h
      · intro _
        rfl
      · intro xField h
        cases h
    | some pMark =>
      refine ⟨?_, ?_, ?_⟩
      · intro h
        cases h
      · intro h
        cases h
      · intro xField h
        have hx : (⟨pMark⟩ : SwVbaFormField) = xField := Except.ok.inj (Option.some.inj h)
        rw [← hx]
        exact ⟨rfl, rfl⟩
  · intro pCache Index aName
    rw [getByIndex_fst, getByIndex_fst, getByName_eq, getByName_eq]
    exact ⟨rfl, rfl⟩

/-- The witness of C18: on the scenario document, `getByName` for a name that is
not there throws, and for a name that is there wraps the mark it has just
cached. -/
theorem no_dereference_of_null_cache_witness :
    (getByName (create scenarioDocument) "b").1 = some (.error .NoSuchElementException)
      ∧ (getByName (create scenarioDocument) "c").2.m_pCache
          = some ⟨3, "C", .TEXT_FIELDMARK⟩ :=
  ⟨((no_dereference_of_null_cache (create scenarioDocument)).2.1 "b").2.1 (by decide),
    (((no_dereference_of_null_cache (create scenarioDocument)).2.1 "c").2.2
      ⟨⟨3, "C", .TEXT_FIELDMARK⟩⟩ (by decide)).2⟩

end VbaFormFields
